import Mathlib

/-!
A verification development for the NVDARemoteServer-Simple relay server.

The Go program is shallowly embedded: the channel registry (`Server.channels`,
`Server.nextID`), the per-client data, and the registry operations
(`SendLineToChannel`, `SendMsgToChannel`, `addClient`, `removeClient`,
`generateKey`, `getNextID`) together with the client-side handshake logic
(`handleHandshake`, `handleChannel`, `sendMotd`, `panicCatch`) are translated
into pure Lean functions.  Go maps become association lists, client pointers
become numeric identifiers (`CId`), socket writes become an explicit list of
`Event`s, and `math/rand` draws become an explicit stream of numbers.
-/

namespace NVDA

/-- A client identifier: the surrogate for a `*Client` pointer in Go.
Pointer equality `client != c` becomes equality of identifiers. -/
abbrev CId := Nat

/-- The value of `Client.AsMap()` in client.go: the two-field JSON object
`{TypeID: c.id, TypeConnectionType: c.connectionType}`. -/
structure ClientMap where
  id : Nat
  connectionType : String
deriving DecidableEq, Repr

/-- JSON values as this server actually produces them.  The Go type is
`map[string]any`; the server only ever stores strings, numbers, booleans,
lists of IDs (`user_ids`), a single client map (`client`) and lists of client
maps (`clients`), so the embedding specialises to those shapes. -/
inductive JVal where
  | s (v : String)
  | n (v : Nat)
  | b (v : Bool)
  | ids (vs : List Nat)
  | cmap (v : ClientMap)
  | cmaps (vs : List ClientMap)
deriving DecidableEq, Repr

/-- `Msg` is `map[string]any` in vars.go, embedded as an association list. -/
abbrev Msg := List (String × JVal)

/-! Constants from vars.go. -/

def Delimiter : Char := '\n'

def TypeJoin : String := "join"

def TypeGenerateKey : String := "generate_key"

def TypeProtocolVersion : String := "protocol_version"

def TypeMotd : String := "motd"

def TypeMotdForceDisplay : String := "force_display"

def TypeChannelJoined : String := "channel_joined"

def TypeChannel : String := "channel"

def TypeClientJoined : String := "client_joined"

def TypeClientLeft : String := "client_left"

def TypeUserID : String := "user_id"

def TypeClient : String := "client"

def TypeUserIDs : String := "user_ids"

def TypeClients : String := "clients"

def TypeID : String := "id"

def TypeConnectionType : String := "connection_type"

def TypeNvdaNotConnected : String := "nvda_not_connected"

def TypeController : String := "master"

def TypeControlled : String := "slave"

def MsgErr : Msg := [("type", .s "error"), ("error", .s "invalid_parameters")]

def MsgNotConnected : Msg := [("type", .s TypeNvdaNotConnected)]

/-! Association-list primitives standing in for Go map operations. -/

/-- Go map read `m[k]` with its `ok` bit: the first binding of `key`. -/
def alookup {α β : Type} [DecidableEq α] : List (α × β) → α → Option β
  | [], _ => none
  | (k, v) :: rest, key => if k = key then some v else alookup rest key

/-- Go map write `m[k] = v` on a key already present: replace in place. -/
def aset {α β : Type} [DecidableEq α] (l : List (α × β)) (key : α) (v : β) :
    List (α × β) :=
  l.map (fun p => if p.1 = key then (key, v) else p)

/-- Go `delete(m, k)`. -/
def aremove {α β : Type} [DecidableEq α] (l : List (α × β)) (key : α) :
    List (α × β) :=
  l.filter (fun p => p.1 != key)

/-- Go `delete(set, x)` on a member set. -/
def srem {α : Type} [DecidableEq α] (l : List α) (x : α) : List α :=
  l.filter (fun y => y != x)

/-- The data fields of a `Client` (client.go) that the registry reads:
`id`, `channel`, `connectionType` and `version`. -/
structure ClientData where
  id : Nat
  channel : String
  connectionType : String
  version : Int
deriving DecidableEq, Repr

/-- The registry state of `Server` (server.go): the `channels` map, the
`nextID` counter, and the heap of currently connected, joined clients that
the channel sets reference by pointer. -/
structure ServerState where
  channels : List (String × List CId)
  nextID : Nat
  clientOf : List (CId × ClientData)
deriving DecidableEq, Repr

/-- The zero `Client` value, used when a lookup misses (never happens on the
states the theorems quantify over). -/
def zeroClient : ClientData := ⟨0, "", "", 0⟩

/-- Dereference a client pointer: read the client's current data. -/
def lookupClient (st : ServerState) (cid : CId) : ClientData :=
  (alookup st.clientOf cid).getD zeroClient

/-- Write back a mutated client struct (e.g. `client.id = ...`). -/
def setClient (st : ServerState) (cid : CId) (d : ClientData) : ServerState :=
  { st with clientOf := aset st.clientOf cid d }

/-- The member set of a channel, `s.channels[name]`, as a list (empty when
the channel is absent, like a nil Go map). -/
def membersOf (st : ServerState) (name : String) : List CId :=
  (alookup st.channels name).getD []

/-! Serialisation: `json.Marshal` on the message shapes the server emits,
followed by the `Delimiter`.  Key order follows the association list; no
claim depends on the byte-level ordering of keys. -/

def jstr (s : String) : String := "\"" ++ s ++ "\""

def encClientMap (c : ClientMap) : String :=
  "\x7b" ++ jstr TypeID ++ ":" ++ toString c.id ++ "," ++
    jstr TypeConnectionType ++ ":" ++ jstr c.connectionType ++ "\x7d"

def encJVal : JVal → String
  | .s v => jstr v
  | .n v => toString v
  | .b v => if v then "true" else "false"
  | .ids vs => "[" ++ String.intercalate "," (vs.map toString) ++ "]"
  | .cmap v => encClientMap v
  | .cmaps vs => "[" ++ String.intercalate "," (vs.map encClientMap) ++ "]"

def encMsg (m : Msg) : String :=
  "\x7b" ++ String.intercalate "," (m.map (fun p => jstr p.1 ++ ":" ++ encJVal p.2))
    ++ "\x7d"

/-- `json.Marshal` plus `line = append(line, Delimiter)`. -/
def marshal (m : Msg) : String := encMsg m ++ String.singleton Delimiter

/-- An observable effect: a line handed to the write pump of a client. -/
inductive Event where
  | line (target : CId) (payload : String)
deriving DecidableEq, Repr

def Event.target : Event → CId
  | .line t _ => t

/-- `Client.SendLine` (client.go): enqueue one line to one client. -/
def SendLine (target : CId) (l : String) : List Event := [.line target l]

/-- `Client.SendMsg` (client.go): marshal, append the delimiter, send. -/
def SendMsg (target : CId) (m : Msg) : List Event := SendLine target (marshal m)

/-- `Client.AsMap` (client.go). -/
def AsMap (d : ClientData) : ClientMap := ⟨d.id, d.connectionType⟩

/-- The recipient condition of the fan-out loop in `SendLineToChannel`:
`client != c && client.connectionType != c.connectionType`. -/
def eligible (st : ServerState) (sender : CId) (c : CId) : Bool :=
  (sender != c) &&
    ((lookupClient st sender).connectionType !=
      (lookupClient st c).connectionType)

/-- `Server.SendLineToChannel` (server.go): under the read lock, if the
sender's channel is absent return; otherwise send the line to every member
`c` satisfying `eligible`; if no recipient was selected and
`sendNotConnected` holds and the sender is a controller (`TypeController`),
send `MsgNotConnected` back to the sender. -/
def SendLineToChannel (st : ServerState) (sender : CId) (l : String)
    (sendNotConnected : Bool) : List Event :=
  match alookup st.channels (lookupClient st sender).channel with
  | none => []
  | some ms =>
    let recips := ms.filter (eligible st sender)
    let evs := recips.map (fun c => Event.line c l)
    if recips.isEmpty && sendNotConnected &&
        ((lookupClient st sender).connectionType == TypeController)
    then evs ++ SendMsg sender MsgNotConnected
    else evs

/-- Go map assignment `msg[k] = v`: overwrite when present, add when absent. -/
def msgSet (m : Msg) (k : String) (v : JVal) : Msg :=
  if (alookup m k).isSome then aset m k v else m ++ [(k, v)]

/-- `Server.SendMsgToChannel` (server.go).  When `encOrigin` holds it executes
`msg["origin"] = client.id` on the caller's map — Go maps are reference
values, so the mutation is visible to the caller after the call returns; the
first component of the result models the caller's map at that point.  It then
marshals and delegates to `SendLineToChannel`, with `encOrigin` doubling as
`sendNotConnected`. -/
def SendMsgToChannel (st : ServerState) (sender : CId) (msg : Msg)
    (encOrigin : Bool) : Msg × List Event :=
  let msg1 := if encOrigin
    then msgSet msg "origin" (.n (lookupClient st sender).id) else msg
  (msg1, SendLineToChannel st sender (marshal msg1) encOrigin)

/-- `Server.getNextID` (server.go): `s.nextID++` on a Go `uint` (64-bit,
wrapping), returning the new value. -/
def getNextID (st : ServerState) : ServerState × Nat :=
  let v := (st.nextID + 1) % 2 ^ 64
  ({ st with nextID := v }, v)

/-- Go map insert of a client into a channel set, creating the set when the
key is absent (`if s.channels[k] == nil`); inserting a member already present
is a no-op, as for a Go map key. -/
def chanInsert (chans : List (String × List CId)) (name : String) (cid : CId) :
    List (String × List CId) :=
  match alookup chans name with
  | none => chans ++ [(name, [cid])]
  | some ms => aset chans name (if cid ∈ ms then ms else ms ++ [cid])

/-- `Server.addClient` (server.go): assign the next ID, broadcast
`client_joined` (no origin injection) while the client is not yet a member,
insert the client, snapshot the role-differing peers, and send
`channel_joined` with the snapshot back to the client. -/
def addClient (st : ServerState) (cid : CId) : ServerState × List Event :=
  let p1 := getNextID st
  let st1 := p1.1
  let d := { lookupClient st1 cid with id := p1.2 }
  let st2 := setClient st1 cid d
  let joinedMsg : Msg :=
    [("type", .s TypeClientJoined), (TypeUserID, .n p1.2),
     (TypeClient, .cmap (AsMap d))]
  let evs1 := (SendMsgToChannel st2 cid joinedMsg false).2
  let st3 := { st2 with channels := chanInsert st2.channels d.channel cid }
  let ms := membersOf st3 d.channel
  let peers := ms.filter
    (fun x => (x != cid) &&
      ((lookupClient st3 x).connectionType != d.connectionType))
  let cjMsg : Msg :=
    [("type", .s TypeChannelJoined), (TypeChannel, .s d.channel),
     (TypeUserIDs, .ids (peers.map (fun x => (lookupClient st3 x).id))),
     (TypeClients, .cmaps (peers.map (fun x => AsMap (lookupClient st3 x))))]
  (st3, evs1 ++ SendMsg cid cjMsg)

/-- `Server.removeClient` (server.go): under the write lock delete the client
from its channel's set, dropping the channel entry (and suppressing the
broadcast) when the set becomes empty; otherwise broadcast `client_left`
after the deletion. -/
def removeClient (st : ServerState) (cid : CId) : ServerState × List Event :=
  let d := lookupClient st cid
  match alookup st.channels d.channel with
  | none => (st, [])
  | some ms =>
    let ms1 := srem ms cid
    if ms1.isEmpty then
      ({ st with channels := aremove st.channels d.channel }, [])
    else
      let st1 := { st with channels := aset st.channels d.channel ms1 }
      let leftMsg : Msg :=
        [("type", .s TypeClientLeft), (TypeUserID, .n d.id),
         (TypeClient, .cmap (AsMap d))]
      (st1, (SendMsgToChannel st1 cid leftMsg false).2)

/-- `Server.generateKey` (server.go).  Each loop iteration draws
`rand.Intn(90000000)`; the draws are passed in as an explicit stream of
numbers below `90000000`, and the loop returns `strconv.Itoa(draw + 10000000)`
for the first candidate whose key is not a current channel name.  `none`
models exhausting the finite stream (the Go loop would keep drawing). -/
def generateKey (st : ServerState) : List Nat → Option String
  | [] => none
  | r :: rest =>
    let key := Nat.repr (r + 10000000)
    if (alookup st.channels key).isSome then generateKey st rest else some key

/-! The client side: handshake, channel dispatch and MOTD (client.go). -/

/-- The `Handshake` struct of vars.go; JSON decoding of a handshake line is
treated as an oracle, so a pre-join step receives `Option Handshake` —
`none` models a line `json.Unmarshal` rejects. -/
structure Handshake where
  hType : String
  channel : String
  connectionType : String
  version : Int
deriving DecidableEq, Repr

/-- Log levels from log.go (`LogLevelNone = iota`, ...). -/
def LogLevelDebug : Int := 4

def LogLevelIntercept : Int := 5

/-- `LogLevelStr.String` from log.go. -/
def logLevelString (l : Int) : String :=
  if l = 0 then "none"
  else if l = 1 then "info"
  else if l = 2 then "warn"
  else if l = 3 then "error"
  else if l = 4 then "debug"
  else if l = 5 then "intercept"
  else toString l

/-- The process-wide configuration read by the client code: the `sendOrigin`,
`motd` and `motdAlwaysDisplay` flags (flags file) and the logger's level. -/
structure Config where
  sendOrigin : Bool
  motd : String
  motdAlwaysDisplay : Bool
  logLevel : Int
deriving DecidableEq, Repr

/-- `Client.sendMotd` (client.go): at log level `Debug` or higher the motd
text is replaced by an interception banner (with the configured motd appended
when non-empty) and `display` is forced to true; otherwise the configured
motd and force flag are used; nothing is sent when the final text is empty. -/
def sendMotd (cfg : Config) (cid : CId) : List Event :=
  let level := cfg.logLevel
  let pair :=
    if level ≥ LogLevelDebug then
      let base := "This server is running with its log level set to " ++
        logLevelString level ++ ". Channel information " ++
        (if level ≥ LogLevelIntercept then "and protocol data" else "") ++
        " is being intercepted."
      (if cfg.motd ≠ "" then base ++ "\n" ++ cfg.motd else base, true)
    else
      (cfg.motd, cfg.motdAlwaysDisplay)
  if pair.1 = "" then []
  else SendMsg cid
    [("type", .s TypeMotd), ("motd", .s pair.1), (TypeMotdForceDisplay, .b pair.2)]

/-- `Client.handleHandshake` (client.go), acting on a decoded handshake.
Returns the new registry state, the events produced, and the boolean the Go
function returns (`false` makes `handler` return, closing the connection). -/
def handleHandshake (cfg : Config) (st : ServerState) (cid : CId)
    (h : Handshake) (draws : List Nat) : ServerState × List Event × Bool :=
  if h.hType = TypeJoin then
    if h.channel = "" ∨ h.connectionType = "" then
      (st, SendMsg cid MsgErr, false)
    else
      let d := lookupClient st cid
      let st1 := setClient st cid
        { d with channel := h.channel, connectionType := h.connectionType }
      let p := addClient st1 cid
      (p.1, p.2 ++ sendMotd cfg cid, true)
  else if h.hType = TypeGenerateKey then
    match generateKey st draws with
    | some key =>
      (st, SendMsg cid [("type", .s TypeGenerateKey), ("key", .s key)], true)
    | none => (st, [], true)
  else if h.hType = TypeProtocolVersion then
    if h.version ≤ 0 then (st, SendMsg cid MsgErr, false)
    else (setClient st cid { lookupClient st cid with version := h.version }, [], true)
  else (st, SendMsg cid MsgErr, false)

/-- One iteration of `Client.handler` (client.go) for a client that has not
yet joined a channel, given the oracle result of `json.Unmarshal` on the
line.  On a decode error the handler logs and returns — closing the
connection without sending anything. -/
def handlerStep (cfg : Config) (st : ServerState) (cid : CId)
    (decoded : Option Handshake) (draws : List Nat) :
    ServerState × List Event × Bool :=
  match decoded with
  | none => (st, [], false)
  | some h => handleHandshake cfg st cid h draws

/-- `Client.handleChannel` (client.go) for a joined client, given the line
and the oracle result of decoding it as a `Msg`. -/
def handleChannel (cfg : Config) (st : ServerState) (cid : CId) (l : String)
    (decoded : Option Msg) : List Event :=
  if !cfg.sendOrigin then SendLineToChannel st cid l true
  else
    match decoded with
    | none => SendLineToChannel st cid l true
    | some m => (SendMsgToChannel st cid m true).2

/-! Panic handling in `Client.handler` (client.go).

The handler executes `defer c.Close()` and then `defer c.panicCatch(recover())`.
Go evaluates the arguments of a deferred call at the `defer` statement, so
`recover()` runs during normal execution — where it returns nil — and the
value `panicCatch` eventually receives is that nil, whatever panics later. -/

/-- `Client.panicCatch` (client.go), returning the log lines it emits.  It
returns immediately on a nil argument. -/
def panicCatch (r : Option String) : List String :=
  match r with
  | none => []
  | some v => ["PANIC CAUGHT: " ++ v]

/-- The value of the `recover()` expression in `defer c.panicCatch(recover())`:
it is evaluated while no panic is in progress, hence nil. -/
def recoverAtDeferTime : Option String := none

/-- A deferred call as registered by `handler`: whether its body invokes
`recover` during panic unwinding, and the log lines it emits then.
`panicCatch` never calls `recover` in its body — the call site passed the
pre-evaluated nil — and `Close` does not either. -/
structure DeferredCall where
  callsRecoverDuringUnwind : Bool
  logOutput : List String
deriving DecidableEq, Repr

/-- The deferred calls of `handler` in their execution (LIFO) order:
`panicCatch` with its pre-evaluated argument, then `Close`. -/
def handlerDeferStack : List DeferredCall :=
  [⟨false, panicCatch recoverAtDeferTime⟩, ⟨false, []⟩]

/-- Go semantics: a panic propagates out of a function unless some deferred
call invokes `recover` while the panic is active. -/
def panicEscapes (defers : List DeferredCall) : Bool :=
  defers.all (fun d => !d.callsRecoverDuringUnwind)

/-- The log lines produced by the deferred calls during unwinding. -/
def unwindLog (defers : List DeferredCall) : List String :=
  defers.flatMap (fun d => d.logOutput)

/-! Reachable registry states.  A `join` step models `handleHandshake`'s
join branch on a freshly connected client (a new pointer, so an identifier
not in the heap, with a non-empty channel and connection type), and a
`leave` step models `Client.Close` on a joined client: `removeClient`
followed by the client going away. -/

/-- The registry right after `NewServer`: no channels, counter at zero. -/
def initialState : ServerState := ⟨[], 0, []⟩

/-- A fresh client joins: it appears in the heap with the channel name and
connection type from its join message, then `addClient` runs. -/
def joinStep (st : ServerState) (cid : CId) (ch ct : String) :
    ServerState × List Event :=
  addClient { st with clientOf := st.clientOf ++ [(cid, ⟨0, ch, ct, 0⟩)] } cid

/-- A joined client disconnects: `removeClient` runs, then the client is
gone from the heap. -/
def leaveStep (st : ServerState) (cid : CId) : ServerState × List Event :=
  let p := removeClient st cid
  ({ p.1 with clientOf := aremove p.1.clientOf cid }, p.2)

/-- The registry states reachable from server start through joins and
leaves. -/
inductive Reach : ServerState → Prop where
  | init : Reach initialState
  | join (st : ServerState) (cid : CId) (ch ct : String) :
      Reach st → alookup st.clientOf cid = none → ch ≠ "" → ct ≠ "" →
      Reach (joinStep st cid ch ct).1
  | leave (st : ServerState) (cid : CId) :
      Reach st → (alookup st.clientOf cid).isSome →
      Reach (leaveStep st cid).1

/-! Concrete states and configurations used by witnesses and
counterexamples, the iterated ID counter, and the invariant
predicates. -/

def stTwo : ServerState :=
  ⟨[("room", [1, 2])], 2,
   [(1, ⟨1, "room", "master", 0⟩), (2, ⟨2, "room", "slave", 0⟩)]⟩

def cfgPlain : Config := ⟨true, "", false, 2⟩

def stWrap : ServerState := ⟨[], 2 ^ 64 - 2, []⟩

/-- `n` successive calls of `getNextID`, returning the handed-out IDs. -/
def runNextID : ServerState → Nat → ServerState × List Nat
  | st, 0 => (st, [])
  | st, n + 1 =>
    let p := getNextID st
    let q := runNextID p.1 n
    (q.1, p.2 :: q.2)

def stMM : ServerState :=
  ⟨[("room", [1, 2, 3])], 3,
   [(1, ⟨1, "room", "master", 0⟩), (2, ⟨2, "room", "master", 0⟩),
    (3, ⟨3, "room", "slave", 0⟩)]⟩

def stPre : ServerState :=
  ⟨[("room", [1])], 1,
   [(1, ⟨1, "room", "master", 0⟩), (3, ⟨0, "room", "slave", 0⟩)]⟩

def cfgDbg : Config := ⟨true, "", false, 4⟩

/-- The registry invariant maintained across joins and leaves: channel sets
are non-empty, every member's heap entry names that channel, and every heap
entry is a member of its channel's set. -/
def Inv (st : ServerState) : Prop :=
  (∀ name ms, alookup st.channels name = some ms → ms ≠ []) ∧
  (∀ name ms, alookup st.channels name = some ms → ∀ cid ∈ ms,
    ∃ d, alookup st.clientOf cid = some d ∧ d.channel = name) ∧
  (∀ cid d, alookup st.clientOf cid = some d →
    ∃ ms, alookup st.channels d.channel = some ms ∧ cid ∈ ms)

/-- The three consistency properties the claim states of every reachable
registry state. -/
def registryConsistent (st : ServerState) : Prop :=
  (∀ name, (alookup st.channels name).isSome ↔
    ∃ cid d, alookup st.clientOf cid = some d ∧ d.channel = name) ∧
  (∀ name ms, alookup st.channels name = some ms → ∀ cid ∈ ms,
    (lookupClient st cid).channel = name) ∧
  (∀ cid d, alookup st.clientOf cid = some d →
    ∃! name, ∃ ms, alookup st.channels name = some ms ∧ cid ∈ ms)

/-! ### Association-list lemmas -/

@[simp] theorem alookup_nil {α β : Type} [DecidableEq α] (k : α) :
    alookup ([] : List (α × β)) k = none := rfl

@[simp] theorem alookup_cons {α β : Type} [DecidableEq α] (k key : α) (v : β)
    (l : List (α × β)) :
    alookup ((k, v) :: l) key = if k = key then some v else alookup l key := rfl

theorem alookup_append {α β : Type} [DecidableEq α] (l1 l2 : List (α × β))
    (k : α) :
    alookup (l1 ++ l2) k =
      match alookup l1 k with
      | some v => some v
      | none => alookup l2 k := by
  induction l1 with
  | nil => simp
  | cons p rest ih =>
    obtain ⟨a, b⟩ := p
    by_cases h : a = k <;> simp [h, ih]

theorem mem_of_alookup_eq_some {α β : Type} [DecidableEq α]
    {l : List (α × β)} {k : α} {v : β} (h : alookup l k = some v) :
    (k, v) ∈ l := by
  induction l with
  | nil => simp at h
  | cons p rest ih =>
    obtain ⟨a, b⟩ := p
    by_cases ha : a = k
    · subst ha
      simp at h
      simp [h]
    · simp [ha] at h
      exact List.mem_cons_of_mem _ (ih h)

theorem alookup_eq_none_iff {α β : Type} [DecidableEq α]
    {l : List (α × β)} {k : α} :
    alookup l k = none ↔ ∀ v, (k, v) ∉ l := by
  induction l with
  | nil => simp
  | cons p rest ih =>
    obtain ⟨a, b⟩ := p
    by_cases ha : a = k
    · subst ha
      simp only [alookup_cons, if_pos rfl]
      constructor
      · intro h
        exact Option.noConfusion h
      · intro h
        exact absurd (List.mem_cons_self _ _) (h b)
    · simp only [alookup_cons, ha, if_false, ih, List.mem_cons]
      constructor
      · intro h v hv
        rcases hv with hv | hv
        · exact ha (congrArg Prod.fst hv).symm
        · exact h v hv
      · intro h v hv
        exact h v (Or.inr hv)

theorem alookup_eq_some_of_mem {α β : Type} [DecidableEq α]
    {l : List (α × β)} {k : α} {v : β}
    (hnd : (l.map Prod.fst).Nodup) (h : (k, v) ∈ l) :
    alookup l k = some v := by
  induction l with
  | nil => simp at h
  | cons p rest ih =>
    obtain ⟨a, b⟩ := p
    simp only [List.map_cons, List.nodup_cons] at hnd
    rcases List.mem_cons.mp h with hv | hv
    · have h1 : k = a := congrArg Prod.fst hv
      have h2 : v = b := congrArg Prod.snd hv
      subst h1
      subst h2
      simp
    · have ha : a ≠ k := by
        intro he
        subst he
        exact hnd.1 (List.mem_map.mpr ⟨(a, v), hv, rfl⟩)
      simp [ha, ih hnd.2 hv]

theorem alookup_isSome_iff {α β : Type} [DecidableEq α]
    {l : List (α × β)} {k : α} :
    (alookup l k).isSome ↔ ∃ v, (k, v) ∈ l := by
  rcases h : alookup l k with _ | v
  · simp only [Option.isSome_none, Bool.false_eq_true, false_iff]
    intro ⟨v, hv⟩
    exact alookup_eq_none_iff.mp h v hv
  · simp only [Option.isSome_some, true_iff]
    exact ⟨v, mem_of_alookup_eq_some h⟩

@[simp] theorem keys_aset {α β : Type} [DecidableEq α] (l : List (α × β))
    (k : α) (v : β) :
    (aset l k v).map Prod.fst = l.map Prod.fst := by
  induction l with
  | nil => rfl
  | cons p rest ih =>
    obtain ⟨a, b⟩ := p
    show ((if a = k then (k, v) else (a, b)) :: aset rest k v).map Prod.fst = _
    by_cases ha : a = k <;> simp [ha, ih]

theorem alookup_aset_self {α β : Type} [DecidableEq α] (l : List (α × β))
    (k : α) (v : β) :
    alookup (aset l k v) k = (alookup l k).map (fun _ => v) := by
  induction l with
  | nil => rfl
  | cons p rest ih =>
    obtain ⟨a, b⟩ := p
    show alookup ((if a = k then (k, v) else (a, b)) :: aset rest k v) k = _
    by_cases ha : a = k
    · subst ha
      simp
    · simp [ha, ih]

theorem alookup_aset_ne {α β : Type} [DecidableEq α] (l : List (α × β))
    {k k' : α} (v : β) (h : k' ≠ k) :
    alookup (aset l k v) k' = alookup l k' := by
  induction l with
  | nil => rfl
  | cons p rest ih =>
    obtain ⟨a, b⟩ := p
    show alookup ((if a = k then (k, v) else (a, b)) :: aset rest k v) k' = _
    by_cases ha : a = k
    · subst ha
      simp [Ne.symm h, ih]
    · by_cases ha' : a = k'
      · subst ha'
        simp [h, ih]
      · simp [ha, ha', ih]

theorem mem_aset {α β : Type} [DecidableEq α] {l : List (α × β)}
    {k k' : α} {v v' : β} :
    (k', v') ∈ aset l k v ↔
      (∃ w, (k', w) ∈ l ∧ k' = k ∧ v' = v) ∨ ((k', v') ∈ l ∧ k' ≠ k) := by
  unfold aset
  rw [List.mem_map]
  constructor
  · rintro ⟨⟨a, b⟩, hab, he⟩
    by_cases ha : a = k
    · rw [if_pos ha] at he
      have h1 : k = k' := congrArg Prod.fst he
      have h2 : v = v' := congrArg Prod.snd he
      refine Or.inl ⟨b, ?_, h1.symm, h2.symm⟩
      rw [← h1, ← ha]
      exact hab
    · rw [if_neg ha] at he
      have h1 : a = k' := congrArg Prod.fst he
      have h2 : b = v' := congrArg Prod.snd he
      subst h1
      subst h2
      exact Or.inr ⟨hab, ha⟩
  · rintro (⟨w, hw, hk, hv⟩ | ⟨hm, hne⟩)
    · refine ⟨(k', w), hw, ?_⟩
      rw [if_pos hk, hk, hv]
    · exact ⟨(k', v'), hm, by simp [hne]⟩

@[simp] theorem alookup_aremove_self {α β : Type} [DecidableEq α]
    (l : List (α × β)) (k : α) :
    alookup (aremove l k) k = none := by
  induction l with
  | nil => rfl
  | cons p rest ih =>
    obtain ⟨a, b⟩ := p
    unfold aremove at ih ⊢
    by_cases ha : a = k <;> simp [List.filter_cons, bne_iff_ne, ha, ih]

theorem alookup_aremove_ne {α β : Type} [DecidableEq α]
    (l : List (α × β)) {k k' : α} (h : k' ≠ k) :
    alookup (aremove l k) k' = alookup l k' := by
  induction l with
  | nil => rfl
  | cons p rest ih =>
    obtain ⟨a, b⟩ := p
    unfold aremove at ih ⊢
    by_cases ha : a = k
    · subst ha
      simp [List.filter_cons, bne_iff_ne, Ne.symm h, ih]
    · by_cases ha' : a = k'
      · subst ha'
        simp [List.filter_cons, bne_iff_ne, h, ih]
      · simp [List.filter_cons, bne_iff_ne, ha, ha', ih]

theorem mem_aremove {α β : Type} [DecidableEq α] {l : List (α × β)}
    {k k' : α} {v : β} :
    (k', v) ∈ aremove l k ↔ (k', v) ∈ l ∧ k' ≠ k := by
  unfold aremove
  simp [List.mem_filter, bne_iff_ne]

theorem keys_aremove_sublist {α β : Type} [DecidableEq α] (l : List (α × β))
    (k : α) :
    ((aremove l k).map Prod.fst).Sublist (l.map Prod.fst) :=
  List.Sublist.map _ (List.filter_sublist l)

@[simp] theorem mem_srem {α : Type} [DecidableEq α] {l : List α} {x y : α} :
    x ∈ srem l y ↔ x ∈ l ∧ x ≠ y := by
  unfold srem
  simp [List.mem_filter, bne_iff_ne]

theorem srem_sublist {α : Type} [DecidableEq α] (l : List α) (y : α) :
    (srem l y).Sublist l := List.filter_sublist l

/-! ### Unfolding lemmas for the send operations -/

theorem sendLineToChannel_none {st : ServerState} {sender : CId}
    (l : String) (rnp : Bool)
    (h : alookup st.channels (lookupClient st sender).channel = none) :
    SendLineToChannel st sender l rnp = [] := by
  unfold SendLineToChannel
  rw [h]

theorem sendLineToChannel_some {st : ServerState} {sender : CId} {ms : List CId}
    (l : String) (rnp : Bool)
    (h : alookup st.channels (lookupClient st sender).channel = some ms) :
    SendLineToChannel st sender l rnp =
      (ms.filter (eligible st sender)).map (fun c => Event.line c l) ++
        (if (ms.filter (eligible st sender)).isEmpty && rnp &&
            ((lookupClient st sender).connectionType == TypeController)
          then SendMsg sender MsgNotConnected else []) := by
  unfold SendLineToChannel
  rw [h]
  dsimp only
  by_cases hb : ((ms.filter (eligible st sender)).isEmpty && rnp &&
      ((lookupClient st sender).connectionType == TypeController)) = true
  · rw [if_pos hb, if_pos hb]
  · rw [if_neg hb, if_neg hb, List.append_nil]

theorem mem_filter_eligible {st : ServerState} {sender m : CId}
    {ms : List CId} :
    m ∈ ms.filter (eligible st sender) ↔
      m ∈ ms ∧ m ≠ sender ∧
        (lookupClient st m).connectionType ≠
          (lookupClient st sender).connectionType := by
  constructor
  · intro hm
    rcases List.mem_filter.mp hm with ⟨h1, h2⟩
    simp only [eligible, Bool.and_eq_true, bne_iff_ne] at h2
    exact ⟨h1, Ne.symm h2.1, Ne.symm h2.2⟩
  · rintro ⟨h1, h2, h3⟩
    refine List.mem_filter.mpr ⟨h1, ?_⟩
    simp only [eligible, Bool.and_eq_true, bne_iff_ne]
    exact ⟨Ne.symm h2, Ne.symm h3⟩

/-! ### Claim C1 -/

/-- C1: for every call `SendLineToChannel(sender, line, reportNoPeer)`, when
the sender's channel name is present in the registry the line goes to exactly
the members `m` with `m ≠ sender` and differing connection type; when that
recipient set is empty, `reportNoPeer` holds, and the sender is a controller
(`TypeController`), a `nvda_not_connected` message goes back to the sender;
and when the channel name is absent nothing is sent (and the registry is
never mutated, `SendLineToChannel` being read-only by construction). -/
theorem sendLineToChannel_exact (st : ServerState) (sender : CId) (l : String)
    (rnp : Bool) :
    (alookup st.channels (lookupClient st sender).channel = none →
      SendLineToChannel st sender l rnp = []) ∧
    (∀ ms, alookup st.channels (lookupClient st sender).channel = some ms →
      ∃ recips : List CId,
        (SendLineToChannel st sender l rnp =
          recips.map (fun c => Event.line c l) ++
            (if recips = [] ∧ rnp = true ∧
                (lookupClient st sender).connectionType = TypeController
              then SendMsg sender MsgNotConnected else [])) ∧
        (∀ m, m ∈ recips ↔ m ∈ ms ∧ m ≠ sender ∧
          (lookupClient st m).connectionType ≠
            (lookupClient st sender).connectionType)) := by
  constructor
  · exact sendLineToChannel_none l rnp
  · intro ms h
    refine ⟨ms.filter (eligible st sender), ?_, fun m => mem_filter_eligible⟩
    rw [sendLineToChannel_some l rnp h]
    congr 1
    refine if_congr ?_ rfl rfl
    simp [Bool.and_eq_true, List.isEmpty_iff, beq_iff_eq, and_assoc]

/-- Witness for C1: in a channel holding a master (sender) and a slave, the
slave receives the relayed line. -/
theorem sendLineToChannel_exact_witness :
    Event.line 2 "k" ∈ SendLineToChannel stTwo 1 "k" true := by
  obtain ⟨recips, heq, hmem⟩ :=
    (sendLineToChannel_exact stTwo 1 "k" true).2 [1, 2] (by decide)
  rw [heq]
  have h2 : 2 ∈ recips := (hmem 2).mpr ⟨by decide, by decide, by decide⟩
  exact List.mem_append_left _ (List.mem_map.mpr ⟨2, h2, rfl⟩)

/-! ### Claim C2 -/

/-- Counterexample to C2: on a pre-join line that `json.Unmarshal` rejects
(e.g. the line `not json`), `handler` logs and returns — the connection is
closed, but the canonical `invalid_parameters` reply the claim requires is
never sent: the event list is empty. -/
theorem handshake_malformed_sends_nothing :
    handlerStep cfgPlain stTwo 9 none [] = (stTwo, [], false) ∧
    SendMsg 9 MsgErr ≠ [] := by
  exact ⟨rfl, by decide⟩

/-- C2 (amended): a malformed pre-join line closes the connection without any
reply; a well-formed handshake whose type is none of
`protocol_version`/`generate_key`/`join`, or a `protocol_version` with a
non-positive version, or a `join` with an empty channel or empty connection
type, is answered with the canonical `invalid_parameters` error and the
connection is then closed. -/
theorem handshake_error_paths (cfg : Config) (st : ServerState) (cid : CId)
    (draws : List Nat) :
    (handlerStep cfg st cid none draws = (st, [], false)) ∧
    (∀ h : Handshake,
      (h.hType ≠ TypeProtocolVersion → h.hType ≠ TypeGenerateKey →
        h.hType ≠ TypeJoin →
        handlerStep cfg st cid (some h) draws =
          (st, SendMsg cid MsgErr, false)) ∧
      (h.hType = TypeProtocolVersion → h.version ≤ 0 →
        handlerStep cfg st cid (some h) draws =
          (st, SendMsg cid MsgErr, false)) ∧
      (h.hType = TypeJoin → (h.channel = "" ∨ h.connectionType = "") →
        handlerStep cfg st cid (some h) draws =
          (st, SendMsg cid MsgErr, false))) := by
  refine ⟨rfl, fun h => ⟨?_, ?_, ?_⟩⟩
  · intro h1 h2 h3
    simp [handlerStep, handleHandshake, h1, h2, h3]
  · intro h1 h2
    simp [handlerStep, handleHandshake, h1, h2,
      TypeProtocolVersion, TypeJoin, TypeGenerateKey]
  · intro h1 h2
    simp [handlerStep, handleHandshake, h1, h2]

/-- Witness for C2 (amended): a concrete `{"type":"bogus"}` handshake draws
the canonical error followed by connection close. -/
theorem handshake_error_paths_witness :
    handlerStep cfgPlain stTwo 9 (some ⟨"bogus", "", "", 0⟩) [] =
      (stTwo, SendMsg 9 MsgErr, false) :=
  ((handshake_error_paths cfgPlain stTwo 9 []).2 ⟨"bogus", "", "", 0⟩).1
    (by decide) (by decide) (by decide)

/-! ### Claim C6 -/

/-- C6 is false of the code: `handler` registers
`defer c.panicCatch(recover())`, whose `recover()` argument Go evaluates at
the `defer` statement — before any panic — so `panicCatch` receives nil, no
deferred call invokes `recover` during unwinding, nothing about the panic is
logged, and the panic escapes the goroutine.  This theorem evaluates the
embedded defer structure: `panicCatch` gets nil hence logs nothing, and the
panic escapes. -/
theorem handler_panic_escapes :
    panicCatch recoverAtDeferTime = [] ∧
    panicEscapes handlerDeferStack = true ∧
    unwindLog handlerDeferStack = [] :=
  ⟨rfl, rfl, rfl⟩

/-! ### Claim C8 -/

/-- Counterexample to C8: `nextID` is a Go `uint` and wraps.  After the
counter has reached `2^64 - 2`, the next two calls return `2^64 - 1` and
then `0`: the subsequent call does not return a strictly larger value. -/
theorem getNextID_wraparound :
    (getNextID stWrap).2 = 2 ^ 64 - 1 ∧
    (getNextID (getNextID stWrap).1).2 = 0 ∧
    ¬(getNextID stWrap).2 < (getNextID (getNextID stWrap).1).2 := by
  refine ⟨?_, ?_, ?_⟩ <;> decide

theorem runNextID_ids (ch : List (String × List CId))
    (cl : List (CId × ClientData)) (s n : Nat) (h : s + n < 2 ^ 64) :
    (runNextID ⟨ch, s, cl⟩ n).2 = List.range' (s + 1) n := by
  induction n generalizing s with
  | zero => rfl
  | succ n ih =>
    have hs : (s + 1) % 2 ^ 64 = s + 1 := Nat.mod_eq_of_lt (by omega)
    show ((runNextID ⟨ch, (s + 1) % 2 ^ 64, cl⟩ n).1,
      (s + 1) % 2 ^ 64 :: (runNextID ⟨ch, (s + 1) % 2 ^ 64, cl⟩ n).2).2 =
        List.range' (s + 1) (n + 1)
    rw [hs, List.range'_succ]
    exact congrArg _ (ih (s + 1) (by omega))

/-- C8 (amended): IDs are handed out by `getNextID`, which increments the
counter and returns the new value; starting from the initial state the `n`
first IDs are exactly `1, 2, ..., n` — the first is 1, they are strictly
increasing and pairwise distinct — provided fewer than `2^64` IDs are issued
in the server lifetime (the Go `uint` counter wraps after that). -/
theorem getNextID_monotone (n : Nat) (h : n < 2 ^ 64) :
    (runNextID initialState n).2 = List.range' 1 n ∧
    (runNextID initialState n).2.Pairwise (· < ·) ∧
    (0 < n → (runNextID initialState n).2.head? = some 1) := by
  have hids : (runNextID initialState n).2 = List.range' 1 n :=
    runNextID_ids [] [] 0 n (by omega)
  refine ⟨hids, ?_, ?_⟩
  · rw [hids]
    exact List.pairwise_lt_range' 1 n
  · intro hn
    rw [hids]
    cases n with
    | zero => omega
    | succ m => rw [List.range'_succ]; rfl

/-- Witness for C8 (amended): the first three IDs are 1, 2, 3. -/
theorem getNextID_monotone_witness :
    (runNextID initialState 3).2 = List.range' 1 3 :=
  (getNextID_monotone 3 (by norm_num)).1

/-! ### Claim C10 -/

theorem alookup_msgSet_self (m : Msg) (k : String) (v : JVal) :
    alookup (msgSet m k v) k = some v := by
  unfold msgSet
  by_cases h : (alookup m k).isSome
  · rw [if_pos h, alookup_aset_self]
    rcases Option.isSome_iff_exists.mp h with ⟨w, hw⟩
    rw [hw]
    rfl
  · rw [if_neg h, alookup_append, Option.not_isSome_iff_eq_none.mp h]
    simp

/-- C10: `SendMsgToChannel(sender, msg, injectOrigin)` with `injectOrigin`
true executes `msg["origin"] = client.id` on the caller's map before
encoding; Go maps are references, so the key stays in the caller's map after
the call (the first component of the result models that map).  In
particular, the map decoded in `handleChannel` is relayed with the `origin`
key installed. -/
theorem sendMsgToChannel_injects_origin (st : ServerState) (sender : CId)
    (msg : Msg) (cfg : Config) (l : String) :
    ((SendMsgToChannel st sender msg true).1 =
      msgSet msg "origin" (.n (lookupClient st sender).id)) ∧
    (alookup (SendMsgToChannel st sender msg true).1 "origin" =
      some (.n (lookupClient st sender).id)) ∧
    (cfg.sendOrigin = true →
      handleChannel cfg st sender l (some msg) =
        SendLineToChannel st sender
          (marshal (msgSet msg "origin" (.n (lookupClient st sender).id)))
          true) := by
  refine ⟨rfl, alookup_msgSet_self _ _ _, fun hso => ?_⟩
  simp [handleChannel, hso, SendMsgToChannel]

/-- Witness for C10: a concrete relayed message acquires `origin = 1` in the
caller's map. -/
theorem sendMsgToChannel_injects_origin_witness :
    alookup (SendMsgToChannel stTwo 1 [("type", .s "key")] true).1 "origin" =
      some (.n 1) ∧
    handleChannel cfgPlain stTwo 1 "x" (some [("type", .s "key")]) =
      SendLineToChannel stTwo 1
        (marshal (msgSet [("type", .s "key")] "origin"
          (.n (lookupClient stTwo 1).id))) true := by
  have h := sendMsgToChannel_injects_origin stTwo 1 [("type", .s "key")]
    cfgPlain "x"
  exact ⟨h.2.1, h.2.2 rfl⟩

/-! ### State-congruence helpers -/

theorem lookupClient_congr {st st' : ServerState}
    (h : st.clientOf = st'.clientOf) (x : CId) :
    lookupClient st x = lookupClient st' x := by
  unfold lookupClient
  rw [h]

theorem eligible_congr {st st' : ServerState}
    (h : st.clientOf = st'.clientOf) (sender c : CId) :
    eligible st sender c = eligible st' sender c := by
  unfold eligible
  rw [lookupClient_congr h, lookupClient_congr h]

/-- With `sendNotConnected = false`, the fan-out only reaches members passing
the `eligible` filter; in particular the sender receives nothing. -/
theorem sendLineToChannel_false_mem {st : ServerState} {sender : CId}
    {l : String} {e : Event}
    (he : e ∈ SendLineToChannel st sender l false) :
    ∃ c ms, alookup st.channels (lookupClient st sender).channel = some ms ∧
      c ∈ ms.filter (eligible st sender) ∧ e = Event.line c l := by
  rcases hch : alookup st.channels (lookupClient st sender).channel with _ | ms
  · rw [sendLineToChannel_none l false hch] at he
    cases he
  · rw [sendLineToChannel_some l false hch, if_neg (by simp),
      List.append_nil] at he
    rcases List.mem_map.mp he with ⟨c, hc, rfl⟩
    exact ⟨c, ms, rfl, hc, rfl⟩

theorem sendLineToChannel_false_target_ne {st : ServerState} {sender : CId}
    {l : String} {e : Event}
    (he : e ∈ SendLineToChannel st sender l false) :
    e.target ≠ sender := by
  obtain ⟨c, ms, _, hc, rfl⟩ := sendLineToChannel_false_mem he
  exact (mem_filter_eligible.mp hc).2.1

theorem sendMsgToChannel_false_events (st : ServerState) (sender : CId)
    (m : Msg) :
    (SendMsgToChannel st sender m false).2 =
      SendLineToChannel st sender (marshal m) false := rfl

/-! ### Claim C4 -/

/-- Counterexample to C4: with masters 1 and 2 and slave 3 in `"room"`,
client 1 leaving does trigger the `client_left` broadcast (the event list is
non-empty), yet the remaining member 2 — same connection type as the leaver —
receives nothing: `client_left` is not broadcast to all remaining members. -/
theorem removeClient_skips_same_role :
    2 ∈ membersOf (removeClient stMM 1).1 "room" ∧
    (removeClient stMM 1).2.all (fun e => e.target != 2) = true ∧
    (removeClient stMM 1).2 ≠ [] := by
  refine ⟨?_, ?_, ?_⟩ <;> decide

/-- C4 (amended): `removeClient(c)` deletes `c` from its channel's set
first; if the set becomes empty the channel entry is deleted and no
`client_left` is sent; otherwise `client_left` is broadcast to exactly the
remaining members of differing connection type, and since deletion precedes
the broadcast the departing client is never a recipient. -/
theorem removeClient_delete_then_broadcast (st : ServerState) (cid : CId)
    (ms : List CId)
    (h : alookup st.channels (lookupClient st cid).channel = some ms) :
    (srem ms cid = [] →
      alookup (removeClient st cid).1.channels
        (lookupClient st cid).channel = none ∧
      (removeClient st cid).2 = []) ∧
    (srem ms cid ≠ [] →
      alookup (removeClient st cid).1.channels
          (lookupClient st cid).channel = some (srem ms cid) ∧
      ∃ recips : List CId,
        (removeClient st cid).2 = recips.map (fun c => Event.line c
          (marshal [("type", .s TypeClientLeft),
                    (TypeUserID, .n (lookupClient st cid).id),
                    (TypeClient, .cmap (AsMap (lookupClient st cid)))])) ∧
        (∀ m, m ∈ recips ↔ m ∈ srem ms cid ∧
          (lookupClient st m).connectionType ≠
            (lookupClient st cid).connectionType) ∧
        cid ∉ recips) := by
  constructor
  · intro hempty
    unfold removeClient
    dsimp only
    rw [h]
    dsimp only
    rw [if_pos (by rw [hempty]; rfl)]
    exact ⟨alookup_aremove_self _ _, rfl⟩
  · intro hne
    unfold removeClient
    dsimp only
    rw [h]
    dsimp only
    rw [if_neg (by simp only [List.isEmpty_iff]; exact hne)]
    set st1 : ServerState :=
      { channels := aset st.channels (lookupClient st cid).channel
          (srem ms cid),
        nextID := st.nextID, clientOf := st.clientOf } with hst1
    have hclientOf : st1.clientOf = st.clientOf := rfl
    have hlc : ∀ x, lookupClient st1 x = lookupClient st x :=
      lookupClient_congr hclientOf
    have hch1 : alookup st1.channels (lookupClient st cid).channel =
        some (srem ms cid) := by
      show alookup (aset st.channels (lookupClient st cid).channel
        (srem ms cid)) (lookupClient st cid).channel = _
      rw [alookup_aset_self, h]
      rfl
    have hsome1 : alookup st1.channels (lookupClient st1 cid).channel =
        some (srem ms cid) := by
      rw [hlc cid]
      exact hch1
    refine ⟨hch1, (srem ms cid).filter (eligible st1 cid), ?_, ?_, ?_⟩
    · rw [sendMsgToChannel_false_events,
        sendLineToChannel_some _ false hsome1, if_neg (by simp),
        List.append_nil]
    · intro m
      rw [mem_filter_eligible]
      constructor
      · rintro ⟨h1, _, h3⟩
        rw [hlc m, hlc cid] at h3
        exact ⟨h1, h3⟩
      · rintro ⟨h1, h3⟩
        refine ⟨h1, (mem_srem.mp h1).2, ?_⟩
        rw [hlc m, hlc cid]
        exact h3
    · intro hmem
      have := (mem_filter_eligible.mp hmem).2.1
      exact this rfl

/-- Witness for C4 (amended): applying the theorem at `stMM` with leaver 1;
after removal the channel holds `[2, 3]`. -/
theorem removeClient_delete_then_broadcast_witness :
    alookup (removeClient stMM 1).1.channels
      (lookupClient stMM 1).channel = some (srem [1, 2, 3] 1) :=
  ((removeClient_delete_then_broadcast stMM 1 [1, 2, 3] (by decide)).2
    (by decide)).1

/-! ### chanInsert lemmas -/

theorem alookup_chanInsert_self (chans : List (String × List CId))
    (name : String) (cid : CId)
    (hfresh : cid ∉ (alookup chans name).getD []) :
    alookup (chanInsert chans name cid) name =
      some ((alookup chans name).getD [] ++ [cid]) := by
  unfold chanInsert
  rcases hch : alookup chans name with _ | ms
  · dsimp only
    rw [alookup_append, hch]
    simp
  · dsimp only
    rw [hch] at hfresh
    simp only [Option.getD_some] at hfresh
    rw [alookup_aset_self, hch]
    simp only [Option.map_some', Option.getD_some]
    rw [if_neg hfresh]

theorem alookup_chanInsert_ne (chans : List (String × List CId))
    {name name' : String} (cid : CId) (h : name' ≠ name) :
    alookup (chanInsert chans name cid) name' = alookup chans name' := by
  unfold chanInsert
  rcases hch : alookup chans name with _ | ms
  · dsimp only
    rw [alookup_append]
    rcases hch' : alookup chans name' with _ | ms'
    · simp [Ne.symm h]
    · rfl
  · exact alookup_aset_ne _ _ h

/-! ### addClient decomposition -/

/-- The observable effects of `addClient` on a connected client `cid` (heap
entry `d0`) that is not yet a member of its channel's set: the event list is
the `client_joined` broadcast followed by one `channel_joined` message to
`cid`; no broadcast event targets `cid` (the broadcast runs before the
insertion); the snapshot `peers` is exactly the prior members of differing
connection type; the new ID is `nextID + 1`; and the set gains `cid`. -/
theorem addClient_events (st : ServerState) (cid : CId) (d0 : ClientData)
    (hc : alookup st.clientOf cid = some d0)
    (hfresh : cid ∉ membersOf st d0.channel) :
    ∃ (evsB : List Event) (peers : List CId),
      (addClient st cid).2 = evsB ++ SendMsg cid
        [("type", .s TypeChannelJoined), (TypeChannel, .s d0.channel),
         (TypeUserIDs, .ids (peers.map (fun x => (lookupClient st x).id))),
         (TypeClients,
          .cmaps (peers.map (fun x => AsMap (lookupClient st x))))] ∧
      (∀ e ∈ evsB, e.target ≠ cid) ∧
      (∀ x, x ∈ peers ↔ x ∈ membersOf st d0.channel ∧
        (lookupClient st x).connectionType ≠ d0.connectionType) ∧
      lookupClient (addClient st cid).1 cid =
        { d0 with id := (st.nextID + 1) % 2 ^ 64 } ∧
      membersOf (addClient st cid).1 d0.channel =
        membersOf st d0.channel ++ [cid] := by
  have hlc1 : lookupClient
      { channels := st.channels, nextID := (st.nextID + 1) % 2 ^ 64,
        clientOf := st.clientOf } cid = d0 := by
    unfold lookupClient
    dsimp only
    rw [hc]
    rfl
  have hfresh' : cid ∉ (alookup st.channels d0.channel).getD [] := hfresh
  have hch3 : alookup (chanInsert st.channels d0.channel cid) d0.channel =
      some (membersOf st d0.channel ++ [cid]) :=
    alookup_chanInsert_self st.channels d0.channel cid hfresh'
  unfold addClient
  simp only [getNextID, setClient, membersOf]
  rw [hlc1]
  rw [hch3]
  simp only [Option.getD_some]
  set newId := (st.nextID + 1) % 2 ^ 64 with hnewId
  set dmk : ClientData :=
    ⟨newId, d0.channel, d0.connectionType, d0.version⟩ with hdmk
  set stMid : ServerState :=
    { channels := st.channels, nextID := newId,
      clientOf := aset st.clientOf cid dmk } with hstMid
  set stIns : ServerState :=
    { channels := chanInsert st.channels d0.channel cid, nextID := newId,
      clientOf := aset st.clientOf cid dmk } with hstIns
  have hlcne : ∀ x, x ≠ cid → lookupClient stIns x = lookupClient st x := by
    intro x hx
    rw [hstIns]
    unfold lookupClient
    dsimp only
    rw [alookup_aset_ne _ _ hx]
  set peersIns := (membersOf st d0.channel ++ [cid]).filter (fun x =>
    (x != cid) &&
      ((lookupClient stIns x).connectionType != d0.connectionType))
    with hpeersIns
  have hpe : ∀ x ∈ peersIns, x ≠ cid := by
    intro x hx
    have h2 := (List.mem_filter.mp hx).2
    simp only [Bool.and_eq_true, bne_iff_ne] at h2
    exact h2.1
  refine ⟨(SendMsgToChannel stMid cid
      [("type", .s TypeClientJoined), (TypeUserID, .n newId),
       (TypeClient, .cmap (AsMap dmk))] false).2,
    peersIns, ?_, ?_, ?_, ?_, ?_⟩
  · have hm1 : peersIns.map (fun x => (lookupClient stIns x).id) =
        peersIns.map (fun x => (lookupClient st x).id) :=
      List.map_congr_left (fun x hx => by rw [hlcne x (hpe x hx)])
    have hm2 : peersIns.map (fun x => AsMap (lookupClient stIns x)) =
        peersIns.map (fun x => AsMap (lookupClient st x)) :=
      List.map_congr_left (fun x hx => by rw [hlcne x (hpe x hx)])
    rw [hm1, hm2]
  · intro e he
    rw [sendMsgToChannel_false_events] at he
    exact sendLineToChannel_false_target_ne he
  · intro x
    rw [hpeersIns, List.mem_filter]
    constructor
    · rintro ⟨hx1, hx2⟩
      simp only [Bool.and_eq_true, bne_iff_ne] at hx2
      obtain ⟨hxc, hxct⟩ := hx2
      have hxm : x ∈ membersOf st d0.channel := by
        rcases List.mem_append.mp hx1 with h | h
        · exact h
        · rw [List.mem_singleton] at h
          exact absurd h hxc
      rw [hlcne x hxc] at hxct
      exact ⟨hxm, hxct⟩
    · rintro ⟨hxm, hxct⟩
      have hxc : x ≠ cid := fun he => hfresh (he ▸ hxm)
      refine ⟨List.mem_append_left _ hxm, ?_⟩
      simp only [Bool.and_eq_true, bne_iff_ne]
      refine ⟨hxc, ?_⟩
      rw [hlcne x hxc]
      exact hxct
  · rw [hstIns]
    unfold lookupClient
    dsimp only
    rw [alookup_aset_self, hc]
    rfl
  · rfl

/-! ### Claim C3 -/

/-- C3: in every execution of `addClient(c)` (on a connected client not yet
in its channel's set) the ID assignment and the `client_joined` broadcast
precede the insertion, so no broadcast event targets `c`; the
`channel_joined` message then sent to `c` carries the channel name and
exactly the prior members of differing connection type, as a `user_ids` list
of their IDs and a `clients` list of their `{id, connection_type}` maps; the
new ID is the incremented counter and the set then gains `c`. -/
theorem addClient_broadcast_before_insert (st : ServerState) (cid : CId)
    (d0 : ClientData) (hc : alookup st.clientOf cid = some d0)
    (hfresh : cid ∉ membersOf st d0.channel) :
    ∃ (evsB : List Event) (peers : List CId),
      (addClient st cid).2 = evsB ++ SendMsg cid
        [("type", .s TypeChannelJoined), (TypeChannel, .s d0.channel),
         (TypeUserIDs, .ids (peers.map (fun x => (lookupClient st x).id))),
         (TypeClients,
          .cmaps (peers.map (fun x => AsMap (lookupClient st x))))] ∧
      (∀ e ∈ evsB, e.target ≠ cid) ∧
      (∀ x, x ∈ peers ↔ x ∈ membersOf st d0.channel ∧
        (lookupClient st x).connectionType ≠ d0.connectionType) ∧
      lookupClient (addClient st cid).1 cid =
        { d0 with id := (st.nextID + 1) % 2 ^ 64 } ∧
      membersOf (addClient st cid).1 d0.channel =
        membersOf st d0.channel ++ [cid] :=
  addClient_events st cid d0 hc hfresh

/-- Witness for C3: client 3 (a slave, not yet a member) joins `"room"`,
which then holds `[1, 3]`. -/
theorem addClient_broadcast_before_insert_witness :
    membersOf (addClient stPre 3).1 "room" = membersOf stPre "room" ++ [3] := by
  obtain ⟨_, _, _, _, _, _, h5⟩ := addClient_broadcast_before_insert stPre 3
    ⟨0, "room", "slave", 0⟩ (by decide) (by decide)
  exact h5

/-! ### Claim C7 -/

/-- Counterexample to C7: the claim says the MOTD is sent exactly when one
is configured, but with the logger at `LogLevelDebug` (level 4) `sendMotd`
sends a motd message even though `motd` is the empty string — no MOTD is
configured. -/
theorem sendMotd_debug_unconfigured :
    cfgDbg.motd = "" ∧ sendMotd cfgDbg 7 ≠ [] := by
  exact ⟨rfl, by decide⟩

/-- C7 (amended): at log levels below debug, with an MOTD configured and
force-display on, a client handling a `join` receives exactly two messages:
the `channel_joined` reply and then, immediately after the join completes,
the MOTD message `{"type":"motd","motd":<text>,"force_display":true}`
followed by the line delimiter (`marshal` appends it); at debug level and
above a motd message is sent even when none is configured (see the
counterexample). -/
theorem motd_first_after_join (cfg : Config) (st : ServerState) (cid : CId)
    (d0 : ClientData) (hs : Handshake) (draws : List Nat)
    (hlvl : cfg.logLevel < LogLevelDebug)
    (hm : cfg.motd ≠ "") (hf : cfg.motdAlwaysDisplay = true)
    (hty : hs.hType = TypeJoin) (hch : hs.channel ≠ "")
    (hct : hs.connectionType ≠ "")
    (hc : alookup st.clientOf cid = some d0)
    (hfresh : cid ∉ membersOf st hs.channel) :
    ∃ cjMsg : Msg,
      ((handleHandshake cfg st cid hs draws).2.1.filter
          (fun e => e.target == cid)) =
        [Event.line cid (marshal cjMsg),
         Event.line cid (marshal
           [("type", .s TypeMotd), ("motd", .s cfg.motd),
            (TypeMotdForceDisplay, .b true)])] ∧
      alookup cjMsg "type" = some (.s TypeChannelJoined) := by
  have hlc0 : lookupClient st cid = d0 := by
    unfold lookupClient
    rw [hc]
    rfl
  unfold handleHandshake
  rw [if_pos hty, if_neg (by rw [not_or]; exact ⟨hch, hct⟩)]
  dsimp only
  rw [hlc0]
  have hc2 : alookup (setClient st cid
      (⟨d0.id, hs.channel, hs.connectionType, d0.version⟩ :
        ClientData)).clientOf cid =
      some (⟨d0.id, hs.channel, hs.connectionType, d0.version⟩ :
        ClientData) := by
    show alookup (aset st.clientOf cid _) cid = _
    rw [alookup_aset_self, hc]
    rfl
  have hfresh2 : cid ∉ membersOf (setClient st cid
      (⟨d0.id, hs.channel, hs.connectionType, d0.version⟩ : ClientData))
      (⟨d0.id, hs.channel, hs.connectionType, d0.version⟩ :
        ClientData).channel := hfresh
  obtain ⟨evsB, peers, h1, h2, _, _, _⟩ := addClient_events _ cid _ hc2 hfresh2
  dsimp only at h1
  rw [h1]
  have hmotd : sendMotd cfg cid = SendMsg cid
      [("type", .s TypeMotd), ("motd", .s cfg.motd),
       (TypeMotdForceDisplay, .b true)] := by
    unfold sendMotd
    dsimp only
    rw [if_neg (not_le.mpr hlvl)]
    dsimp only
    rw [if_neg hm, hf]
  rw [hmotd]
  have hB : evsB.filter (fun e => e.target == cid) = [] := by
    rw [List.filter_eq_nil_iff]
    intro e he
    simp only [beq_iff_eq]
    exact h2 e he
  refine ⟨[("type", .s TypeChannelJoined), (TypeChannel, .s hs.channel),
    (TypeUserIDs, .ids (peers.map (fun x => (lookupClient (setClient st cid
      (⟨d0.id, hs.channel, hs.connectionType, d0.version⟩ : ClientData))
        x).id))),
    (TypeClients, .cmaps (peers.map (fun x => AsMap (lookupClient
      (setClient st cid (⟨d0.id, hs.channel, hs.connectionType,
        d0.version⟩ : ClientData)) x))))], ?_, rfl⟩
  rw [List.filter_append, List.filter_append, hB]
  simp [SendMsg, SendLine, Event.target]

/-- Witness for C7 (amended): with motd `"hi"`, force-display on and log
level 0, client 3 joining `"room"` receives `channel_joined` and then the
MOTD with `force_display` true. -/
theorem motd_first_after_join_witness :
    ∃ cjMsg : Msg,
      ((handleHandshake ⟨true, "hi", true, 0⟩ stPre 3
          ⟨"join", "room", "slave", 0⟩ []).2.1.filter
          (fun e => e.target == 3)) =
        [Event.line 3 (marshal cjMsg),
         Event.line 3 (marshal
           [("type", .s TypeMotd), ("motd", .s "hi"),
            (TypeMotdForceDisplay, .b true)])] ∧
      alookup cjMsg "type" = some (.s TypeChannelJoined) :=
  motd_first_after_join ⟨true, "hi", true, 0⟩ stPre 3 ⟨0, "room", "slave", 0⟩
    ⟨"join", "room", "slave", 0⟩ [] (by decide) (by decide) rfl rfl
    (by decide) (by decide) (by decide) (by decide)

/-! ### Claim C9 -/

theorem toDigitsCore_digits_length (fuel : Nat) :
    ∀ (n : Nat) (acc : List Char), 0 < n → n < fuel + 1 →
    (Nat.toDigitsCore 10 (fuel + 1) n acc).length =
      (Nat.digits 10 n).length + acc.length := by
  induction fuel with
  | zero =>
    intro n acc hn hf
    exact absurd hf (by omega)
  | succ f ih =>
    intro n acc hn hf
    rw [show Nat.toDigitsCore 10 (f + 1 + 1) n acc =
      if n / 10 = 0 then Nat.digitChar (n % 10) :: acc
      else Nat.toDigitsCore 10 (f + 1) (n / 10)
        (Nat.digitChar (n % 10) :: acc) from rfl]
    by_cases hq : n / 10 = 0
    · rw [if_pos hq, Nat.digits_def' (by norm_num : (1:ℕ) < 10) hn, hq]
      simp
      omega
    · rw [if_neg hq]
      have hlt : n / 10 < n := Nat.div_lt_self hn (by norm_num)
      rw [ih (n / 10) (Nat.digitChar (n % 10) :: acc)
        (Nat.pos_of_ne_zero hq) (by omega)]
      rw [Nat.digits_def' (by norm_num : (1:ℕ) < 10) hn]
      simp
      omega

theorem repr_length_eq_digits (n : Nat) (hn : 0 < n) :
    (Nat.repr n).length = (Nat.digits 10 n).length := by
  show ((Nat.toDigits 10 n).asString).length = _
  rw [List.length_asString]
  show (Nat.toDigitsCore 10 (n + 1) n []).length = _
  rw [toDigitsCore_digits_length n n [] hn (by omega)]
  rfl

theorem repr_length_eight {n : Nat} (h1 : 10000000 ≤ n) (h2 : n ≤ 99999999) :
    (Nat.repr n).length = 8 := by
  rw [repr_length_eq_digits n (by omega),
    Nat.digits_len 10 n (by norm_num) (by omega)]
  have hlog : Nat.log 10 n = 7 := by
    refine Nat.log_eq_of_pow_le_of_lt_pow ?_ ?_
    · norm_num
      omega
    · norm_num
      omega
  omega

theorem generateKey_range (st : ServerState) :
    ∀ (draws : List Nat) (key : String),
    (∀ r ∈ draws, r < 90000000) → generateKey st draws = some key →
    (∃ m : Nat, key = Nat.repr m ∧ 10000000 ≤ m ∧ m ≤ 99999999) ∧
    alookup st.channels key = none := by
  intro draws
  induction draws with
  | nil =>
    intro key _ hk
    exact Option.noConfusion hk
  | cons r rest ih =>
    intro key hd hk
    unfold generateKey at hk
    dsimp only at hk
    by_cases hex : (alookup st.channels (Nat.repr (r + 10000000))).isSome
    · rw [if_pos hex] at hk
      exact ih key (fun x hx => hd x (List.mem_cons_of_mem _ hx)) hk
    · rw [if_neg hex] at hk
      injection hk with hk
      subst hk
      have hr : r < 90000000 := hd r (List.mem_cons_self _ _)
      exact ⟨⟨r + 10000000, rfl, by omega, by omega⟩,
        Option.not_isSome_iff_eq_none.mp hex⟩

/-- C9: every key `generateKey` returns is the decimal string of a number in
`[10000000, 99999999]` — eight decimal digits — not in use as a channel name
at the existence check; and the candidate map `r ↦ r + 10000000` is a
bijection from the range of `rand.Intn(90000000)` onto that interval, so a
uniform draw yields a uniform candidate. -/
theorem generateKey_spec (st : ServerState) (draws : List Nat) (key : String)
    (hd : ∀ r ∈ draws, r < 90000000)
    (hk : generateKey st draws = some key) :
    (∃ m : Nat, key = Nat.repr m ∧ 10000000 ≤ m ∧ m ≤ 99999999 ∧
      key.length = 8) ∧
    alookup st.channels key = none ∧
    Set.BijOn (fun r => r + 10000000) (Set.Ico (0 : Nat) 90000000)
      (Set.Icc (10000000 : Nat) 99999999) := by
  obtain ⟨⟨m, hkey, hm1, hm2⟩, hnone⟩ := generateKey_range st draws key hd hk
  refine ⟨⟨m, hkey, hm1, hm2, ?_⟩, hnone, ?_, ?_, ?_⟩
  · rw [hkey]
    exact repr_length_eight hm1 hm2
  · intro x hx
    simp only [Set.mem_Ico] at hx
    simp only [Set.mem_Icc]
    omega
  · intro a _ b _ hab
    simpa using hab
  · intro y hy
    simp only [Set.mem_Icc] at hy
    refine ⟨y - 10000000, ?_, ?_⟩
    · simp only [Set.mem_Ico]
      omega
    · simp only
      omega

/-! ### Claim C5 -/

theorem addClient_state (st : ServerState) (cid : CId) :
    (addClient st cid).1 =
      { channels := chanInsert st.channels (lookupClient st cid).channel cid,
        nextID := (st.nextID + 1) % 2 ^ 64,
        clientOf := aset st.clientOf cid
          { lookupClient st cid with id := (st.nextID + 1) % 2 ^ 64 } } := rfl

theorem removeClient_state (st : ServerState) (cid : CId) (ms : List CId)
    (h : alookup st.channels (lookupClient st cid).channel = some ms) :
    (removeClient st cid).1 =
      if (srem ms cid).isEmpty then
        { st with
          channels := aremove st.channels (lookupClient st cid).channel }
      else
        { st with
          channels := aset st.channels (lookupClient st cid).channel
            (srem ms cid) } := by
  unfold removeClient
  dsimp only
  rw [h]
  dsimp only
  by_cases he : (srem ms cid).isEmpty = true
  · rw [if_pos he, if_pos he]
  · rw [if_neg he, if_neg he]

theorem removeClient_clientOf (st : ServerState) (cid : CId) :
    (removeClient st cid).1.clientOf = st.clientOf := by
  unfold removeClient
  dsimp only
  rcases alookup st.channels (lookupClient st cid).channel with _ | ms
  · rfl
  · dsimp only
    by_cases he : (srem ms cid).isEmpty = true
    · rw [if_pos he]
    · rw [if_neg he]

theorem leaveStep_clientOf (st : ServerState) (cid : CId) :
    (leaveStep st cid).1.clientOf = aremove st.clientOf cid := by
  unfold leaveStep
  dsimp only
  rw [removeClient_clientOf]

theorem joinStep_state (st : ServerState) (cid : CId) (ch ct : String)
    (hfresh : alookup st.clientOf cid = none) :
    (joinStep st cid ch ct).1 =
      { channels := chanInsert st.channels ch cid,
        nextID := (st.nextID + 1) % 2 ^ 64,
        clientOf := aset (st.clientOf ++ [(cid, ⟨0, ch, ct, 0⟩)]) cid
          ⟨(st.nextID + 1) % 2 ^ 64, ch, ct, 0⟩ } := by
  unfold joinStep
  rw [addClient_state]
  have hlc : lookupClient
      { st with clientOf := st.clientOf ++ [(cid, ⟨0, ch, ct, 0⟩)] } cid =
      (⟨0, ch, ct, 0⟩ : ClientData) := by
    unfold lookupClient
    dsimp only
    rw [alookup_append, hfresh]
    simp
  rw [hlc]

theorem inv_init : Inv initialState :=
  ⟨fun _ _ h => Option.noConfusion h,
   fun _ _ h => Option.noConfusion h,
   fun _ _ h => Option.noConfusion h⟩

theorem inv_join (st : ServerState) (cid : CId) (ch ct : String)
    (hinv : Inv st) (hfresh : alookup st.clientOf cid = none) :
    Inv (joinStep st cid ch ct).1 := by
  obtain ⟨inv1, inv2, inv3⟩ := hinv
  have hnotmem : cid ∉ (alookup st.channels ch).getD [] := by
    rcases hch0 : alookup st.channels ch with _ | ms0
    · simp
    · simp only [Option.getD_some]
      intro hmem
      obtain ⟨d, hd, _⟩ := inv2 ch ms0 hch0 cid hmem
      rw [hfresh] at hd
      exact Option.noConfusion hd
  have hchIns : alookup (chanInsert st.channels ch cid) ch =
      some ((alookup st.channels ch).getD [] ++ [cid]) :=
    alookup_chanInsert_self st.channels ch cid hnotmem
  have hchOther : ∀ name, name ≠ ch →
      alookup (chanInsert st.channels ch cid) name =
        alookup st.channels name :=
    fun _ hn => alookup_chanInsert_ne st.channels cid hn
  rw [joinStep_state st cid ch ct hfresh]
  set dnew : ClientData := ⟨(st.nextID + 1) % 2 ^ 64, ch, ct, 0⟩ with hdnew
  have hlookNew : ∀ x, x ≠ cid →
      alookup (aset (st.clientOf ++ [(cid, (⟨0, ch, ct, 0⟩ : ClientData))])
        cid dnew) x = alookup st.clientOf x := by
    intro x hx
    rw [alookup_aset_ne _ _ hx, alookup_append]
    rcases hsx : alookup st.clientOf x with _ | d
    · dsimp only
      rw [alookup_cons, if_neg (Ne.symm hx)]
      rfl
    · rfl
  have hlookCid :
      alookup (aset (st.clientOf ++ [(cid, (⟨0, ch, ct, 0⟩ : ClientData))])
        cid dnew) cid = some dnew := by
    rw [alookup_aset_self, alookup_append, hfresh]
    dsimp only
    rw [alookup_cons, if_pos rfl]
    rfl
  refine ⟨?_, ?_, ?_⟩
  · intro name ms hms
    by_cases hn : name = ch
    · rw [hn] at hms
      rw [hchIns] at hms
      injection hms with hms
      subst hms
      simp
    · rw [hchOther name hn] at hms
      exact inv1 name ms hms
  · intro name ms hms x hx
    by_cases hn : name = ch
    · rw [hn] at hms ⊢
      rw [hchIns] at hms
      injection hms with hms
      subst hms
      rcases List.mem_append.mp hx with hxm | hxc
      · rcases hch0 : alookup st.channels ch with _ | ms0
        · rw [hch0] at hxm
          exact absurd hxm (List.not_mem_nil _)
        · rw [hch0] at hxm
          simp only [Option.getD_some] at hxm
          obtain ⟨d, hd, hdc⟩ := inv2 ch ms0 hch0 x hxm
          have hxcid : x ≠ cid := by
            intro he
            rw [he, hfresh] at hd
            exact Option.noConfusion hd
          refine ⟨d, ?_, hdc⟩
          rw [hlookNew x hxcid]
          exact hd
      · rw [List.mem_singleton] at hxc
        subst hxc
        exact ⟨dnew, hlookCid, rfl⟩
    · rw [hchOther name hn] at hms
      obtain ⟨d, hd, hdc⟩ := inv2 name ms hms x hx
      have hxcid : x ≠ cid := by
        intro he
        rw [he, hfresh] at hd
        exact Option.noConfusion hd
      refine ⟨d, ?_, hdc⟩
      rw [hlookNew x hxcid]
      exact hd
  · intro x d hd
    by_cases hx : x = cid
    · rw [hx] at hd ⊢
      rw [hlookCid] at hd
      injection hd with hd
      subst hd
      exact ⟨(alookup st.channels ch).getD [] ++ [cid], hchIns,
        List.mem_append_right _ (List.mem_singleton.mpr rfl)⟩
    · rw [hlookNew x hx] at hd
      obtain ⟨ms0, hms0, hxms⟩ := inv3 x d hd
      by_cases hdc : d.channel = ch
      · rw [hdc] at hms0 ⊢
        refine ⟨_, hchIns, List.mem_append_left _ ?_⟩
        rw [hms0]
        simpa using hxms
      · rw [hchOther _ hdc]
        exact ⟨ms0, hms0, hxms⟩

theorem inv_leave (st : ServerState) (cid : CId)
    (hinv : Inv st) (hj : (alookup st.clientOf cid).isSome) :
    Inv (leaveStep st cid).1 := by
  obtain ⟨inv1, inv2, inv3⟩ := hinv
  obtain ⟨d0, hd0⟩ := Option.isSome_iff_exists.mp hj
  have hlc : lookupClient st cid = d0 := by
    unfold lookupClient
    rw [hd0]
    rfl
  obtain ⟨ms, hms, hcidms⟩ := inv3 cid d0 hd0
  have hms' : alookup st.channels (lookupClient st cid).channel = some ms := by
    rw [hlc]
    exact hms
  have hclientOf : (leaveStep st cid).1.clientOf = aremove st.clientOf cid :=
    leaveStep_clientOf st cid
  have hlookNe : ∀ x, x ≠ cid →
      alookup (aremove st.clientOf cid) x = alookup st.clientOf x :=
    fun _ hx => alookup_aremove_ne _ hx
  have hrs := removeClient_state st cid ms hms'
  have hchannels :
      (leaveStep st cid).1.channels = (removeClient st cid).1.channels := rfl
  by_cases he : (srem ms cid).isEmpty = true
  · have hCh : (leaveStep st cid).1.channels =
        aremove st.channels d0.channel := by
      rw [hchannels, hrs, if_pos he]
      dsimp only
      rw [hlc]
    have hemp : srem ms cid = [] := List.isEmpty_iff.mp he
    refine ⟨?_, ?_, ?_⟩
    · intro name ms1 hms1
      rw [hCh] at hms1
      by_cases hn : name = d0.channel
      · rw [hn, alookup_aremove_self] at hms1
        exact Option.noConfusion hms1
      · rw [alookup_aremove_ne _ hn] at hms1
        exact inv1 name ms1 hms1
    · intro name ms1 hms1 x hx
      rw [hCh] at hms1
      by_cases hn : name = d0.channel
      · rw [hn, alookup_aremove_self] at hms1
        exact Option.noConfusion hms1
      · rw [alookup_aremove_ne _ hn] at hms1
        obtain ⟨d, hd, hdc⟩ := inv2 name ms1 hms1 x hx
        have hxcid : x ≠ cid := by
          intro hxe
          rw [hxe, hd0] at hd
          injection hd with hd
          rw [← hd] at hdc
          exact hn hdc.symm
        refine ⟨d, ?_, hdc⟩
        rw [hclientOf, hlookNe x hxcid]
        exact hd
    · intro x d hd
      rw [hclientOf] at hd
      have hxcid : x ≠ cid := by
        intro hxe
        rw [hxe, alookup_aremove_self] at hd
        exact Option.noConfusion hd
      rw [hlookNe x hxcid] at hd
      obtain ⟨ms1, hms1, hxms⟩ := inv3 x d hd
      by_cases hdc : d.channel = d0.channel
      · rw [hdc] at hms1
        rw [hms] at hms1
        injection hms1 with hms1
        subst hms1
        have : x ∈ srem ms cid := mem_srem.mpr ⟨hxms, hxcid⟩
        rw [hemp] at this
        exact absurd this (List.not_mem_nil _)
      · rw [hCh]
        rw [alookup_aremove_ne _ hdc]
        exact ⟨ms1, hms1, hxms⟩
  · have hCh : (leaveStep st cid).1.channels =
        aset st.channels d0.channel (srem ms cid) := by
      rw [hchannels, hrs, if_neg he]
      dsimp only
      rw [hlc]
    have hchSelf : alookup (aset st.channels d0.channel (srem ms cid))
        d0.channel = some (srem ms cid) := by
      rw [alookup_aset_self, hms]
      rfl
    refine ⟨?_, ?_, ?_⟩
    · intro name ms1 hms1
      rw [hCh] at hms1
      by_cases hn : name = d0.channel
      · rw [hn, hchSelf] at hms1
        injection hms1 with hms1
        subst hms1
        intro hnil
        rw [hnil] at he
        exact he rfl
      · rw [alookup_aset_ne _ _ hn] at hms1
        exact inv1 name ms1 hms1
    · intro name ms1 hms1 x hx
      rw [hCh] at hms1
      by_cases hn : name = d0.channel
      · rw [hn, hchSelf] at hms1
        injection hms1 with hms1
        subst hms1
        obtain ⟨hxms, hxcid⟩ := mem_srem.mp hx
        obtain ⟨d, hd, hdc⟩ := inv2 d0.channel ms hms x hxms
        refine ⟨d, ?_, hn ▸ hdc⟩
        rw [hclientOf, hlookNe x hxcid]
        exact hd
      · rw [alookup_aset_ne _ _ hn] at hms1
        obtain ⟨d, hd, hdc⟩ := inv2 name ms1 hms1 x hx
        have hxcid : x ≠ cid := by
          intro hxe
          rw [hxe, hd0] at hd
          injection hd with hd
          rw [← hd] at hdc
          exact hn hdc.symm
        refine ⟨d, ?_, hdc⟩
        rw [hclientOf, hlookNe x hxcid]
        exact hd
    · intro x d hd
      rw [hclientOf] at hd
      have hxcid : x ≠ cid := by
        intro hxe
        rw [hxe, alookup_aremove_self] at hd
        exact Option.noConfusion hd
      rw [hlookNe x hxcid] at hd
      obtain ⟨ms1, hms1, hxms⟩ := inv3 x d hd
      rw [hCh]
      by_cases hdc : d.channel = d0.channel
      · rw [hdc] at hms1 ⊢
        rw [hms] at hms1
        injection hms1 with hms1
        subst hms1
        exact ⟨srem ms cid, hchSelf, mem_srem.mpr ⟨hxms, hxcid⟩⟩
      · rw [alookup_aset_ne _ _ hdc]
        exact ⟨ms1, hms1, hxms⟩

theorem reach_inv (st : ServerState) (h : Reach st) : Inv st := by
  induction h with
  | init => exact inv_init
  | join st cid ch ct _ hfresh hch hct ih => exact inv_join st cid ch ct ih hfresh
  | leave st cid _ hj ih => exact inv_leave st cid ih hj

theorem inv_implies_consistent (st : ServerState) (h : Inv st) :
    registryConsistent st := by
  obtain ⟨inv1, inv2, inv3⟩ := h
  refine ⟨?_, ?_, ?_⟩
  · intro name
    constructor
    · intro hs
      obtain ⟨ms, hms⟩ := Option.isSome_iff_exists.mp hs
      obtain ⟨x, hx⟩ := List.exists_mem_of_ne_nil ms (inv1 name ms hms)
      obtain ⟨d, hd, hdc⟩ := inv2 name ms hms x hx
      exact ⟨x, d, hd, hdc⟩
    · rintro ⟨x, d, hd, rfl⟩
      obtain ⟨ms, hms, _⟩ := inv3 x d hd
      rw [hms]
      rfl
  · intro name ms hms x hx
    obtain ⟨d, hd, hdc⟩ := inv2 name ms hms x hx
    unfold lookupClient
    rw [hd]
    exact hdc
  · intro x d hd
    obtain ⟨ms, hms, hxms⟩ := inv3 x d hd
    refine ⟨d.channel, ⟨ms, hms, hxms⟩, ?_⟩
    rintro name' ⟨ms', hms', hxms'⟩
    obtain ⟨d', hd', hdc'⟩ := inv2 name' ms' hms' x hxms'
    rw [hd] at hd'
    injection hd' with hd'
    rw [← hd'] at hdc'
    exact hdc'.symm

/-- C5: in every reachable registry state a channel name is a key of the
channels map iff some connected, joined client has that channel name; every
member of `channels[name]` has `channel = name`; and every joined client
appears in exactly one channel set.  Reachability closes the states under
`addClient` (joins) and `removeClient` (leaves), so the invariant is
preserved by both. -/
theorem reachable_registry_consistent (st : ServerState) (h : Reach st) :
    registryConsistent st :=
  inv_implies_consistent st (reach_inv st h)

/-- Witness for C5: the state after one client joins `"room"` from the
initial state is consistent. -/
theorem reachable_registry_consistent_witness :
    registryConsistent (joinStep initialState 1 "room" "master").1 :=
  reachable_registry_consistent _
    (Reach.join initialState 1 "room" "master" Reach.init rfl
      (by decide) (by decide))

/-- Witness for C9: with no channels and the single draw 5, the key is
`"10000005"`. -/
theorem generateKey_spec_witness :
    (∃ m : Nat, "10000005" = Nat.repr m ∧ 10000000 ≤ m ∧ m ≤ 99999999 ∧
      ("10000005" : String).length = 8) ∧
    alookup initialState.channels "10000005" = none ∧
    Set.BijOn (fun r => r + 10000000) (Set.Ico (0 : Nat) 90000000)
      (Set.Icc (10000000 : Nat) 99999999) :=
  generateKey_spec initialState [5] "10000005" (by decide) (by decide)

end NVDA
